import Mathlib

/-!
Verification of the UDP relay core (`udp.go`) of go-shadowsocks2.

Bytes are modelled as `Nat`, byte slices as `List Nat`.  Go's builtin
`copy` has memmove semantics (source and destination may overlap); on an
immutable-list model this is captured by computing the source snapshot
before writing.  Go slice expressions that can panic are modelled with
`Option`: `none` is a runtime panic (slice bounds out of range).
-/

namespace GoShadowUDP

/-- `udpBufSize = 64 * 1024`, the receive buffer size used by every loop. -/
def udpBufSize : Nat := 64 * 1024

/-- Result of Go `copy(dst, src)`: the new contents of `dst`.  Copies
`min (len dst) (len src)` bytes from the front of `src` into the front of
`dst`; the tail of `dst` is unchanged.  Overlap-safe (memmove). -/
def goCopy (dst src : List Nat) : List Nat :=
  src.take dst.length ++ dst.drop (min src.length dst.length)

/-- Go `copy(buf[off:], src)`: the new contents of the backing array `buf`. -/
def copyAt (buf : List Nat) (off : Nat) (src : List Nat) : List Nat :=
  buf.take off ++ goCopy (buf.drop off) src

/-- Go slice expression `b[lo:hi]` on a slice with `len = cap = b.length`:
`some` of the sub-slice when `lo ≤ hi ∧ hi ≤ b.length`, `none` (runtime
panic, slice bounds out of range) otherwise. -/
def goSlice (b : List Nat) (lo hi : Nat) : Option (List Nat) :=
  if lo ≤ hi ∧ hi ≤ b.length then some ((b.take hi).drop lo) else none

/-- Modelled from the spec: the Wire Address codec (`socks.SplitAddr`), an
external collaborator (§6) not under src/: "split(buffer) → (WireAddress,
remainingLength)", a Wire Address being a "self-delimiting" "type tag +
address bytes + 2-byte big-endian port" with "fixed type tags for IPv4,
IPv6, and domain-name forms" (SOCKS5 ATYP values 1, 4 and 3; the
domain-name form carries a one-byte length before the name).  Returns the
length of the Wire Address leading `b`, or `none` when none can be split. -/
def wireAddrLen (b : List Nat) : Option Nat :=
  match b with
  | [] => none
  | t :: rest =>
    if t = 1 then (if 1 + 4 + 2 ≤ b.length then some (1 + 4 + 2) else none)
    else if t = 4 then (if 1 + 16 + 2 ≤ b.length then some (1 + 16 + 2) else none)
    else if t = 3 then
      match rest with
      | [] => none
      | l :: _ => if 1 + 1 + l + 2 ≤ b.length then some (1 + 1 + l + 2) else none
    else none

/-- `socks.SplitAddr(b)`: the leading Wire Address slice of `b`, `none`
when undecodable (the Go function returns `nil`). -/
def splitAddr (b : List Nat) : Option (List Nat) :=
  (wireAddrLen b).map fun k => b.take k

/-- The three session roles (`mode` in udp.go). -/
inductive Mode where
  | remoteServer
  | relayClient
  | socksClient
deriving DecidableEq

/-- The datagram passed to `dst.WriteTo` by one iteration of `timedCopy`'s
role switch (udp.go 279–290), as a function of the role, the bytes
`srcAddr = socks.ParseAddr(addr.String())` (used by `remoteServer` only;
`[]` models a `nil` result, whose Go `len` is 0), the session receive
buffer `buf`, and the read length `n`.  In `timedCopy` the buffer has
length `udpBufSize`.  `none` models a panic of a slice expression. -/
def timedCopyWrite (role : Mode) (srcAddr : List Nat) (buf : List Nat) (n : Nat) :
    Option (List Nat) :=
  match role with
  | .remoteServer =>
    -- copy(buf[len(srcAddr):], buf[:n]); copy(buf, srcAddr); buf[:len(srcAddr)+n]
    if srcAddr.length ≤ buf.length then
      goSlice (copyAt (copyAt buf srcAddr.length (buf.take n)) 0 srcAddr) 0
        (srcAddr.length + n)
    else none
  | .relayClient =>
    -- srcAddr := socks.SplitAddr(buf[:n]); buf[len(srcAddr):n]
    let alen := ((splitAddr (buf.take n)).map List.length).getD 0
    goSlice buf alen n
  | .socksClient =>
    -- append([]byte{0, 0, 0}, buf[:n]...)
    some ([0, 0, 0] ++ buf.take n)

/-- The session buffer after one iteration of `timedCopy`'s switch: the
`remoteServer` arm splices in place; the other arms do not mutate `buf`
(`append` with a full 3-element literal allocates a fresh slice). -/
def timedCopyBufAfter (role : Mode) (srcAddr : List Nat) (buf : List Nat) (n : Nat) :
    List Nat :=
  match role with
  | .remoteServer => copyAt (copyAt buf srcAddr.length (buf.take n)) 0 srcAddr
  | .relayClient => buf
  | .socksClient => buf

/-- One iteration of the `udpSocksLocal` read loop after a successful read
of `n` bytes into `buf` (udp.go 113–136): the datagram written to the
server address is `buf[3:n]` (`none` models the slice panic).  The 3-byte
SOCKS5 UDP header is skipped without length validation. -/
def socksLocalForward (buf : List Nat) (n : Nat) : Option (List Nat) :=
  goSlice buf 3 n

/-- The `udpLocal` read loop (udp.go 56–85), datagram path only: each
successful read deposits a payload `d` at `buf[len(tgt):]` and the loop
writes `buf[:len(tgt)+n]` to the server address.  Returns the datagrams
written over a schedule of successfully read payloads. -/
def udpLocalLoop (tgt : List Nat) : List Nat → List (List Nat) → List (List Nat)
  | _, [] => []
  | buf, d :: ds =>
    (copyAt buf tgt.length d).take (tgt.length + d.length) ::
      udpLocalLoop tgt (copyAt buf tgt.length d) ds

/-- `udpLocal` startup and loop (udp.go 52–85): the buffer is
`make([]byte, udpBufSize)` with the target wire address copied in once
(`copy(buf, tgt)`), then the read loop runs. -/
def udpLocalRun (tgt : List Nat) (ds : List (List Nat)) : List (List Nat) :=
  udpLocalLoop tgt (copyAt (List.replicate udpBufSize 0) 0 tgt) ds

/-- The NAT table (`natmap`, udp.go 214–250) modelled as its underlying
map; the RWMutex only serialises access.  Keys (canonical peer
addresses) and values (outbound connections) are abstracted to `Nat`
identities. -/
def NatMap := Nat → Option Nat

/-- `natmap.Get`. -/
def natGet (m : NatMap) (key : Nat) : Option Nat := m key

/-- `natmap.Set`. -/
def natSet (m : NatMap) (key : Nat) (pc : Nat) : NatMap :=
  fun k => if k = key then some pc else m k

/-- `natmap.Del`: removes the entry and returns it, or returns `nil`
leaving the table unchanged. -/
def natDel (m : NatMap) (key : Nat) : Option Nat × NatMap :=
  match m key with
  | some pc => (some pc, fun k => if k = key then none else m k)
  | none => (none, m)

/-- The lookup-or-create step shared by the three read loops (`udpLocal`
68–78, `udpSocksLocal` 124–134, `udpRemote` 194–203): `pc := nm.Get(raddr)`;
if `nil`, open a fresh outbound connection (`net.ListenPacket`, modelled
by a counter issuing fresh identities) and install it with `nm.Add`
(which stores via `Set`).  Returns the connection used for the write,
the new table, the new counter, and whether a connection was created. -/
def sessionStep (m : NatMap) (next peer : Nat) : Nat × NatMap × Nat × Bool :=
  match natGet m peer with
  | some pc => (pc, m, next, false)
  | none => (next, natSet m peer next, next + 1, true)

/-- Sequential processing of the peers of successive datagrams by one
ingress read loop: per datagram, look up or create the session; log the
connection used and whether it was freshly created. -/
def sessionLoop : NatMap → Nat → List Nat → List (Nat × Bool) × NatMap × Nat
  | m, next, [] => ([], m, next)
  | m, next, peer :: rest =>
    let s := sessionStep m next peer
    let r := sessionLoop s.2.1 s.2.2.1 rest
    ((s.1, s.2.2.2) :: r.1, r.2.1, r.2.2)

/-- State of the `udpRemote` ingress (udp.go 164–210): session table,
fresh-connection counter, and the log of
(connection, payload, resolved target) forwards. -/
structure RState where
  nat : NatMap
  next : Nat
  writes : List (Nat × List Nat × Nat)

/-- One iteration of the `udpRemote` read loop (udp.go 168–210) on a
successfully read and decrypted datagram `dgram = buf[:n]` from tunnel
peer `peer`: split the leading Wire Address (`socks.SplitAddr`; on `nil`
log and continue, dropping the datagram), resolve it (`resolve` abstracts
`net.ResolveUDPAddr`; on error log and continue), look up or create the
session, and forward `payload = buf[len(tgtAddr):n]` to the resolved
target. -/
def udpRemoteStep (resolve : List Nat → Option Nat) (st : RState)
    (peer : Nat) (dgram : List Nat) : RState :=
  match wireAddrLen dgram with
  | none => st
  | some alen =>
    match resolve (dgram.take alen) with
    | none => st
    | some tgt =>
      { nat := (sessionStep st.nat st.next peer).2.1,
        next := (sessionStep st.nat st.next peer).2.2.1,
        writes := st.writes
          ++ [((sessionStep st.nat st.next peer).1, dgram.drop alen, tgt)] }

/-- The `udpRemote` read loop over a schedule of (peer, datagram) reads. -/
def udpRemoteLoop (resolve : List Nat → Option Nat) :
    RState → List (Nat × List Nat) → RState
  | st, [] => st
  | st, (peer, d) :: rest =>
    udpRemoteLoop resolve (udpRemoteStep resolve st peer d) rest

/-- A canonical `netip.Addr` as produced by `netip.ParseAddr`: an IPv4 or
IPv6 value with its byte representation. -/
inductive IpVal where
  | v4 (b : List Nat)
  | v6 (b : List Nat)
deriving DecidableEq

/-- The composite `netip.ParseAddr(udp.IP.String())` (both Go standard
library) on a `net.IP` byte slice: a 4-byte IP renders in dotted form and
parses as IPv4; a 16-byte IP renders (and re-parses) as IPv4 when
IPv4-mapped and as IPv6 otherwise; any other length — including a nil IP,
which renders as "\x3cnil\x3e" — fails to parse. -/
def parseIPString (ip : List Nat) : Option IpVal :=
  if ip.length = 4 then some (.v4 ip)
  else if ip.length = 16 then
    if ip.take 12 = [0, 0, 0, 0, 0, 0, 0, 0, 0, 0, 255, 255] then
      some (.v4 (ip.drop 12))
    else some (.v6 ip)
  else none

/-- `netip.Addr.IsValid`: every address returned by a successful
`netip.ParseAddr` is initialized, hence valid; the code's
`!ip.IsValid()` branch is unreachable. -/
def ipIsValid : IpVal → Bool := fun _ => true

/-- A transport address handed to `udpAddrToNetip`: a `*net.UDPAddr`
(IP bytes and `int` port), or any other `net.Addr` implementation, for
which the type assertion `addr.(*net.UDPAddr)` fails. -/
inductive NetAddr where
  | udp (ip : List Nat) (port : Int)
  | other
deriving DecidableEq

/-- `udpAddrToNetip` (udp.go 298–311): result is the `netip.AddrPort`
(modelled as an optional canonical IP plus 16-bit port; `(none, 0)` is
the zero `netip.AddrPort{}`) together with whether an error was
returned.  `uint16(udp.Port)` truncates the `int` to its low 16 bits. -/
def udpAddrToNetip : NetAddr → (Option IpVal × Nat) × Bool
  | .other => ((none, 0), true)
  | .udp ip port =>
    match parseIPString ip with
    | none => ((none, 0), true)
    | some a =>
      if ipIsValid a then ((some a, (port % 65536).toNat), false)
      else ((none, 0), true)

/-- One scheduled iteration of `timedCopy`: the outcome of
`src.ReadFrom(buf)` (`readOk`, the bytes read, and the wire encoding
`socks.ParseAddr(addr.String())` of the source address) and of the
subsequent `dst.WriteTo` (`writeOk`), plus the value of `time.Now()`
when the iteration sets the read deadline.  A failed read models any
read error, idle-timeout deadline expiry included. -/
structure TCIter where
  readOk : Bool
  data : List Nat
  srcAddr : List Nat
  writeOk : Bool
  now : Nat
deriving DecidableEq

/-- How a finite run of `timedCopy` ends. -/
inductive TCExit where
  | blocked
  | errored
  | panicked
deriving DecidableEq

/-- A run of `timedCopy` (udp.go 264–296) over a finite schedule of read
attempts: per iteration set the read deadline `now + timeout`, read
(on error, return it), apply the role transform, write (on error, return
it).  Yields the deadlines set, the datagrams passed to `dst.WriteTo`,
and how the run ended: `errored` = the loop returned an error,
`panicked` = a slice expression panicked (the goroutine dies without
returning), `blocked` = schedule exhausted, the loop still reading. -/
def timedCopyRun (role : Mode) (timeout : Nat) :
    List Nat → List TCIter → List Nat × List (List Nat) × TCExit
  | _, [] => ([], [], .blocked)
  | buf, it :: rest =>
    if it.readOk then
      match timedCopyWrite role it.srcAddr (copyAt buf 0 it.data) it.data.length with
      | none => ([it.now + timeout], [], .panicked)
      | some w =>
        if it.writeOk then
          ((it.now + timeout)
              :: (timedCopyRun role timeout
                (timedCopyBufAfter role it.srcAddr (copyAt buf 0 it.data)
                  it.data.length) rest).1,
            w :: (timedCopyRun role timeout
                (timedCopyBufAfter role it.srcAddr (copyAt buf 0 it.data)
                  it.data.length) rest).2.1,
            (timedCopyRun role timeout
                (timedCopyBufAfter role it.srcAddr (copyAt buf 0 it.data)
                  it.data.length) rest).2.2)
        else ([it.now + timeout], [w], .errored)
    else ([it.now + timeout], [], .errored)

/-- The background task spawned by `natmap.Add` (udp.go 255–260): run
`timedCopy`; when it returns, `Del(peer)` and `Close` the returned
connection if one was present.  Yields the final table, the number of
`Close` calls, and whether the teardown ran.  A panicked or still-blocked
run never reaches the teardown. -/
def addTask (role : Mode) (timeout : Nat) (buf : List Nat) (iters : List TCIter)
    (m : NatMap) (peer : Nat) : NatMap × Nat × Bool :=
  match (timedCopyRun role timeout buf iters).2.2 with
  | .errored =>
    match natDel m peer with
    | (some _, m') => (m', 1, true)
    | (none, m') => (m', 0, true)
  | _ => (m, 0, false)

theorem goCopy_length (dst src : List Nat) : (goCopy dst src).length = dst.length := by
  simp [goCopy]
  omega

theorem copyAt_length (buf : List Nat) (off : Nat) (src : List Nat)
    (h : off ≤ buf.length) : (copyAt buf off src).length = buf.length := by
  simp [copyAt, goCopy_length]
  omega

/-- When the source fits in the destination, `copy` deposits it whole:
the region `[off, off + len src)` becomes `src` and the rest is unchanged. -/
theorem copyAt_fits (buf : List Nat) (off : Nat) (src : List Nat)
    (h : off + src.length ≤ buf.length) :
    copyAt buf off src = buf.take off ++ src ++ buf.drop (off + src.length) := by
  have hd : (buf.drop off).length = buf.length - off := by simp
  have hs : src.length ≤ (buf.drop off).length := by omega
  have hmin : min src.length (buf.drop off).length = src.length := by omega
  unfold copyAt goCopy
  rw [List.take_of_length_le hs, hmin, List.drop_drop, List.append_assoc]

theorem wireAddrLen_le (b : List Nat) (k : Nat) (h : wireAddrLen b = some k) :
    k ≤ b.length := by
  match b with
  | [] => simp [wireAddrLen] at h
  | t :: rest =>
    simp only [wireAddrLen] at h
    split at h
    · split at h <;> simp_all <;> omega
    · split at h
      · split at h <;> simp_all <;> omega
      · split at h
        · split at h
          · simp_all
          · split at h <;> simp_all <;> omega
        · simp_all

theorem splitAddr_length (b a : List Nat) (h : splitAddr b = some a) :
    a.length ≤ b.length ∧ wireAddrLen b = some a.length := by
  simp only [splitAddr, Option.map_eq_some'] at h
  obtain ⟨k, hk, rfl⟩ := h
  have hle := wireAddrLen_le b k hk
  have hlen : (b.take k).length = k := by
    simp [List.length_take]
    omega
  rw [hlen]
  exact ⟨hle, hk⟩

theorem goSlice_pos (b : List Nat) (lo hi : Nat) (h1 : lo ≤ hi) (h2 : hi ≤ b.length) :
    goSlice b lo hi = some ((b.take hi).drop lo) := by
  simp [goSlice, h1, h2]

theorem drop_append_len (A B : List Nat) (k : Nat) (h : A.length = k) :
    (A ++ B).drop k = B := by
  subst h
  exact List.drop_left A B

theorem take_append_exact (A B C : List Nat) (k n : Nat) (hA : A.length = k)
    (hB : B.length = n) : (A ++ (B ++ C)).take (k + n) = A ++ B := by
  subst hA
  subst hB
  rw [List.take_append, List.take_left]

theorem timedCopyWrite_remote_len (srcAddr buf : List Nat) (n : Nat)
    (hk : srcAddr.length ≤ buf.length) :
    (copyAt (copyAt buf srcAddr.length (buf.take n)) 0 srcAddr).length = buf.length := by
  rw [copyAt_length _ 0 srcAddr (Nat.zero_le _), copyAt_length _ _ _ hk]

/-- Under the fit bound, the `remoteServer` in-place splice panics when the
prepended address pushes the final slice past the 64 KiB buffer. -/
theorem timedCopyWrite_remote_overflow (srcAddr buf : List Nat) (n : Nat)
    (hk : srcAddr.length ≤ buf.length) (hover : buf.length < srcAddr.length + n) :
    timedCopyWrite .remoteServer srcAddr buf n = none := by
  simp only [timedCopyWrite]
  rw [if_pos hk]
  simp only [goSlice, timedCopyWrite_remote_len srcAddr buf n hk]
  rw [if_neg (by omega)]

/-- C1 (amended): in a `remoteServer` session, a datagram `buf[:n]` read
from the outbound connection with source address `A` is written to the
tunnel peer as `encode(A) ‖ buf[:n]`, the payload bytes unchanged by the
in-place overlapping-buffer splice — provided the encoded address plus
payload fit the session buffer (`len(encode(A)) + n ≤ udpBufSize`); for
larger `n` the final slice `buf[:len(srcAddr)+n]` is out of bounds. -/
theorem c1_remote_reverse_transform (srcAddr buf : List Nat) (n : Nat)
    (hfit : srcAddr.length + n ≤ buf.length) :
    timedCopyWrite .remoteServer srcAddr buf n = some (srcAddr ++ buf.take n) := by
  have hk : srcAddr.length ≤ buf.length := by omega
  have hn : n ≤ buf.length := by omega
  have htn : (buf.take n).length = n := by
    simp [List.length_take]
    omega
  have hb1 : copyAt buf srcAddr.length (buf.take n)
      = buf.take srcAddr.length ++ (buf.take n ++ buf.drop (srcAddr.length + n)) := by
    have h := copyAt_fits buf srcAddr.length (buf.take n) (by rw [htn]; exact hfit)
    rw [h, htn, List.append_assoc]
  have hA : (buf.take srcAddr.length).length = srcAddr.length := by
    simp [List.length_take]
    omega
  have hb2 : copyAt (buf.take srcAddr.length ++ (buf.take n ++ buf.drop (srcAddr.length + n)))
        0 srcAddr
      = srcAddr ++ (buf.take n ++ buf.drop (srcAddr.length + n)) := by
    rw [copyAt_fits _ 0 srcAddr (by simp [List.length_take, List.length_drop]; omega)]
    simp only [List.take_zero, List.nil_append, Nat.zero_add]
    rw [drop_append_len _ _ _ hA]
  have hlen2 : (srcAddr ++ (buf.take n ++ buf.drop (srcAddr.length + n))).length
      = buf.length := by
    simp [List.length_take, List.length_drop]
    omega
  simp only [timedCopyWrite]
  rw [if_pos hk, hb1, hb2, goSlice_pos _ _ _ (Nat.zero_le _) (by rw [hlen2]; omega),
    List.drop_zero]
  congr 1
  exact take_append_exact _ _ _ _ _ rfl htn

/-- C1 counterexample: the claim as stated fails on a maximum-size reply.
A 65527-byte datagram (the largest UDP/IPv6 payload) arriving from an
IPv6 source (19-byte wire address) makes `buf[:len(srcAddr)+n]` =
`buf[:65546]` exceed the 65536-byte buffer: the slice panics and no
datagram equal to `encode(A) ‖ payload` is written. -/
theorem c1_counterexample :
    timedCopyWrite .remoteServer
      [4, 32, 1, 13, 184, 0, 0, 0, 0, 0, 0, 0, 0, 0, 0, 0, 1, 0, 80]
      (List.replicate udpBufSize 0) 65527 = none := by
  apply timedCopyWrite_remote_overflow
  · rw [List.length_replicate]
    norm_num [udpBufSize]
  · rw [List.length_replicate]
    norm_num [udpBufSize]

/-- Witness for C1: a concrete 7-byte IPv4 wire address and a 3-byte
payload in a 12-byte buffer. -/
theorem c1_witness :
    timedCopyWrite .remoteServer [1, 9, 9, 9, 9, 0, 80]
      [10, 20, 30, 0, 0, 0, 0, 0, 0, 0, 0, 0] 3
      = some [1, 9, 9, 9, 9, 0, 80, 10, 20, 30] := by
  have h := c1_remote_reverse_transform [1, 9, 9, 9, 9, 0, 80]
    [10, 20, 30, 0, 0, 0, 0, 0, 0, 0, 0, 0] 3 (by decide)
  simpa using h

/-- C2: SOCKS-mode round trip.  A client datagram `[0,0,0] ‖ a ‖ p` read
by `udpSocksLocal` produces the outbound datagram `a ‖ p` (`buf[3:n]`),
and a reply payload `q` read by the session's `socksClient` relay is
delivered back to the client as `[0,0,0] ‖ q`
(`append([]byte{0,0,0}, buf[:n]...)`): payloads traverse both directions
byte-identical, only the 3-byte header is removed/added. -/
theorem c2_socks_round_trip (a p q buf bufR : List Nat) (n m : Nat)
    (hn : n ≤ buf.length) (hread : buf.take n = [0, 0, 0] ++ (a ++ p))
    (hq : bufR.take m = q) :
    socksLocalForward buf n = some (a ++ p) ∧
    timedCopyWrite .socksClient [] bufR m = some ([0, 0, 0] ++ q) := by
  constructor
  · have hlen : (buf.take n).length = n := by
      simp [List.length_take]
      omega
    have h3 : 3 ≤ n := by
      rw [hread] at hlen
      simp at hlen
      omega
    rw [socksLocalForward, goSlice_pos buf 3 n h3 hn, hread]
    rfl
  · simp [timedCopyWrite, hq]

/-- Witness for C2: `a = encode(9.9.9.9:443)`, `p = "GET"`, reply
`q = "OK"`. -/
theorem c2_witness :
    socksLocalForward [0, 0, 0, 1, 9, 9, 9, 9, 1, 187, 71, 69, 84] 13
      = some [1, 9, 9, 9, 9, 1, 187, 71, 69, 84] ∧
    timedCopyWrite .socksClient [] [79, 75] 2 = some [0, 0, 0, 79, 75] := by
  have h := c2_socks_round_trip [1, 9, 9, 9, 9, 1, 187] [71, 69, 84] [79, 75]
    [0, 0, 0, 1, 9, 9, 9, 9, 1, 187, 71, 69, 84] [79, 75] 13 2
    (by decide) (by decide) (by decide)
  simpa using h

/-- C4 (amended): `udpSocksLocal` forwards, for every datagram of length
`n ≥ 3` read into its buffer, exactly bytes 3 through n-1 of the datagram
(`buf[3:n]`), unchanged, to the server address; for `n < 3` the slice
panics instead (see C10). -/
theorem c4_socks_outbound (buf : List Nat) (n : Nat) (h3 : 3 ≤ n)
    (hn : n ≤ buf.length) :
    socksLocalForward buf n = some ((buf.take n).drop 3) := by
  rw [socksLocalForward, goSlice_pos buf 3 n h3 hn]

/-- C4 counterexample: the claim as stated quantifies over every received
length, but a 2-byte datagram (`n = 2 < 3`) makes `buf[3:n]` out of
bounds: nothing is written, refuting "the bytes written are exactly bytes
3 through n-1". -/
theorem c4_counterexample :
    socksLocalForward (List.replicate udpBufSize 0) 2 = none := by
  simp [socksLocalForward, goSlice]

/-- Witness for C4: a 5-byte datagram forwards its last two bytes. -/
theorem c4_witness :
    socksLocalForward [0, 0, 0, 7, 8] 5 = some [7, 8] := by
  have h := c4_socks_outbound [0, 0, 0, 7, 8] 5 (by decide) (by decide)
  simpa using h

/-- C5: in a `relayClient` session, a datagram `buf[:n]` read from the
outbound connection that begins with a decodable Wire Address `sa`
(`socks.SplitAddr`) is written back to the original peer with that
leading address removed (`buf[len(srcAddr):n]`): only the payload is
forwarded. -/
theorem c5_relayClient_reverse (buf sa : List Nat) (n : Nat)
    (hn : n ≤ buf.length) (hsplit : splitAddr (buf.take n) = some sa) :
    timedCopyWrite .relayClient [] buf n = some ((buf.take n).drop sa.length) := by
  obtain ⟨hle, _⟩ := splitAddr_length _ _ hsplit
  have htn : (buf.take n).length = n := by
    simp [List.length_take]
    omega
  rw [htn] at hle
  simp only [timedCopyWrite, hsplit, Option.map_some', Option.getD_some]
  exact goSlice_pos buf sa.length n hle hn

/-- Witness for C5: a datagram `encode(10.0.0.1:80) ‖ "hi"` is relayed
back as `"hi"`. -/
theorem c5_witness :
    timedCopyWrite .relayClient [] [1, 10, 0, 0, 1, 0, 80, 104, 105] 9
      = some [104, 105] := by
  have h := c5_relayClient_reverse [1, 10, 0, 0, 1, 0, 80, 104, 105]
    [1, 10, 0, 0, 1, 0, 80] 9 (by decide) (by decide)
  simpa using h

/-- C10: `udpSocksLocal`'s per-datagram handling is total only for
`n ≥ 3`: for every read of `n ≥ 3` bytes both `buf[3:]` and `buf[3:n]`
are in bounds, while every read of `n < 3` bytes makes `buf[3:n]` out of
bounds (the 3-byte header is skipped with no length validation). -/
theorem c10_socks_short_datagram :
    (∀ (buf : List Nat) (n : Nat), buf.length = udpBufSize → 3 ≤ n →
      n ≤ udpBufSize →
      (goSlice buf 3 buf.length).isSome = true ∧
        (socksLocalForward buf n).isSome = true) ∧
    ∀ (buf : List Nat) (n : Nat), buf.length = udpBufSize → n < 3 →
      socksLocalForward buf n = none := by
  constructor
  · intro buf n hbuf h3 hn
    constructor
    · rw [goSlice_pos buf 3 buf.length (by rw [hbuf]; norm_num [udpBufSize])
        (Nat.le_refl _)]
      rfl
    · rw [socksLocalForward, goSlice_pos buf 3 n h3 (by omega)]
      rfl
  · intro buf n _ hn
    simp [socksLocalForward, goSlice]
    omega

/-- Witness for C10: in a full-size buffer, `n = 5` is in bounds and
`n = 2` panics. -/
theorem c10_witness :
    (socksLocalForward (List.replicate udpBufSize 0) 5).isSome = true ∧
    socksLocalForward (List.replicate udpBufSize 0) 2 = none := by
  constructor
  · exact (c10_socks_short_datagram.1 (List.replicate udpBufSize 0) 5
      (by rw [List.length_replicate]) (by norm_num) (by norm_num [udpBufSize])).2
  · exact c10_socks_short_datagram.2 (List.replicate udpBufSize 0) 2
      (by rw [List.length_replicate]) (by norm_num)

theorem udpLocalLoop_spec (tgt : List Nat) (ds : List (List Nat)) :
    ∀ buf : List Nat, buf.length = udpBufSize → buf.take tgt.length = tgt →
    (∀ d ∈ ds, tgt.length + d.length ≤ udpBufSize) →
    udpLocalLoop tgt buf ds = ds.map (fun d => tgt ++ d) := by
  induction ds with
  | nil => intro buf _ _ _; rfl
  | cons d ds ih =>
    intro buf hlen hpre hds
    have hfit : tgt.length + d.length ≤ buf.length := by
      rw [hlen]
      exact hds d (List.mem_cons_self d ds)
    have hbuf1 : copyAt buf tgt.length d
        = tgt ++ (d ++ buf.drop (tgt.length + d.length)) := by
      rw [copyAt_fits buf tgt.length d hfit, hpre, List.append_assoc]
    have hlen1 : (copyAt buf tgt.length d).length = udpBufSize := by
      rw [copyAt_length buf tgt.length d (by omega), hlen]
    have hpre1 : (copyAt buf tgt.length d).take tgt.length = tgt := by
      rw [hbuf1, List.take_left]
    simp only [udpLocalLoop, List.map_cons]
    congr 1
    · rw [hbuf1]
      exact take_append_exact _ _ _ _ _ rfl rfl
    · exact ih _ hlen1 hpre1 fun e he => hds e (List.mem_cons_of_mem d he)

/-- C3: transparent-mode outbound framing.  For every iteration of the
`udpLocal` read loop, the datagram written to the server address is the
startup-resolved target's wire-address bytes followed by exactly the `n`
payload bytes read: `encode(target) ‖ payload`.  (Reads land in
`buf[len(tgt):]`, so `n ≤ udpBufSize - len(tgt)`.) -/
theorem c3_transparent_outbound (tgt : List Nat) (ds : List (List Nat))
    (htgt : tgt.length ≤ udpBufSize)
    (hds : ∀ d ∈ ds, d.length ≤ udpBufSize - tgt.length) :
    udpLocalRun tgt ds = ds.map (fun d => tgt ++ d) := by
  have hzlen : (List.replicate udpBufSize (0 : Nat)).length = udpBufSize :=
    List.length_replicate udpBufSize 0
  apply udpLocalLoop_spec
  · rw [copyAt_length _ 0 tgt (Nat.zero_le _)]
    exact hzlen
  · rw [copyAt_fits _ 0 tgt (by rw [hzlen]; omega)]
    simp only [List.take_zero, List.nil_append]
    exact List.take_left tgt _
  · intro d hd
    have := hds d hd
    omega

/-- Witness for C3: target `93.184.216.34:80`, payload `"hello"`. -/
theorem c3_witness :
    udpLocalRun [1, 93, 184, 216, 34, 0, 80] [[104, 101, 108, 108, 111]]
      = [[1, 93, 184, 216, 34, 0, 80, 104, 101, 108, 108, 111]] := by
  have h := c3_transparent_outbound [1, 93, 184, 216, 34, 0, 80]
    [[104, 101, 108, 108, 111]] (by decide) (by decide)
  simpa using h

/-- C9: at-most-one-session invariant and reuse.  In every ingress read
loop the lookup-or-create step (i) reuses the connection and leaves the
table and counter untouched when `Get(peer)` hits, (ii) creates a fresh
connection and calls `Add` only when `Get(peer)` misses; hence (iii) two
sequentially processed datagrams from the same peer (no intervening
teardown) create exactly one outbound connection, the second reusing it,
with the single table entry for that peer unchanged throughout.  (The
table is a map, so it holds at most one entry per peer at any point.) -/
theorem c9_single_session :
    (∀ (m : NatMap) (next peer pc : Nat), natGet m peer = some pc →
      sessionStep m next peer = (pc, m, next, false)) ∧
    (∀ (m : NatMap) (next peer : Nat), natGet m peer = none →
      sessionStep m next peer = (next, natSet m peer next, next + 1, true)) ∧
    ∀ (m : NatMap) (next peer : Nat), natGet m peer = none →
      sessionLoop m next [peer, peer]
        = ([(next, true), (next, false)], natSet m peer next, next + 1) := by
  refine ⟨fun m next peer pc h => by simp [sessionStep, h],
    fun m next peer h => by simp [sessionStep, h], fun m next peer h => ?_⟩
  have h2 : natGet (natSet m peer next) peer = some next := by
    simp [natGet, natSet]
  simp [sessionLoop, sessionStep, h, h2]

/-- Witness for C9: two datagrams from peer 42 against an empty table. -/
theorem c9_witness :
    sessionLoop (fun _ => none) 0 [42, 42]
      = ([(0, true), (0, false)], natSet (fun _ => none) 42 0, 1) :=
  c9_single_session.2.2 (fun _ => none) 0 42 rfl

/-- C7: remote-ingress malformed datagrams.  A datagram from which no
leading Wire Address can be split forwards nothing and creates no
session (the state, including the session table and the forward log, is
unchanged), and the read loop continues: the remaining schedule is
processed exactly as if the malformed datagram had never arrived. -/
theorem c7_remote_malformed (resolve : List Nat → Option Nat) (st : RState)
    (peer : Nat) (d : List Nat) (rest : List (Nat × List Nat))
    (hbad : splitAddr d = none) :
    udpRemoteStep resolve st peer d = st ∧
    udpRemoteLoop resolve st ((peer, d) :: rest) = udpRemoteLoop resolve st rest := by
  have hlen : wireAddrLen d = none := by
    simpa [splitAddr, Option.map_eq_none'] using hbad
  constructor
  · simp [udpRemoteStep, hlen]
  · simp [udpRemoteLoop, udpRemoteStep, hlen]

/-- Witness for C7: the 3-byte datagram `[1, 2, 3]` (IPv4 tag but too
short for a 7-byte IPv4 wire address) is dropped with no state change. -/
theorem c7_witness :
    udpRemoteStep (fun _ => none) ⟨fun _ => none, 0, []⟩ 5 [1, 2, 3]
      = ⟨fun _ => none, 0, []⟩ :=
  (c7_remote_malformed (fun _ => none) ⟨fun _ => none, 0, []⟩ 5 [1, 2, 3] []
    (by decide)).1

/-- C8: the Address Adapter returns an error and the zero `AddrPort` for
every transport address that is not a `*net.UDPAddr` and for every UDP
address whose IP component fails to parse (or is invalid), never a
silent default; for every well-formed UDP address (parseable IP, port in
0..65535) it returns the canonical (IP, port) pair.  The function is
pure, so it has no side effects. -/
theorem c8_address_adapter :
    (udpAddrToNetip .other = ((none, 0), true)) ∧
    (∀ (ip : List Nat) (port : Int), parseIPString ip = none →
      udpAddrToNetip (.udp ip port) = ((none, 0), true)) ∧
    ∀ (ip : List Nat) (port : Int) (a : IpVal), parseIPString ip = some a →
      0 ≤ port → port < 65536 →
      udpAddrToNetip (.udp ip port) = ((some a, port.toNat), false) := by
  refine ⟨rfl, fun ip port h => by simp [udpAddrToNetip, h],
    fun ip port a h h0 hlt => ?_⟩
  have hmod : port % 65536 = port := Int.emod_eq_of_lt h0 hlt
  simp [udpAddrToNetip, h, ipIsValid, hmod]

/-- Witness for C8: a non-UDP address and a 3-byte IP are rejected; the
UDP address 127.0.0.1:80 canonicalizes. -/
theorem c8_witness :
    udpAddrToNetip .other = ((none, 0), true) ∧
    udpAddrToNetip (.udp [1, 2, 3] 5) = ((none, 0), true) ∧
    udpAddrToNetip (.udp [127, 0, 0, 1] 80)
      = ((some (.v4 [127, 0, 0, 1]), 80), false) := by
  refine ⟨c8_address_adapter.1,
    c8_address_adapter.2.1 [1, 2, 3] 5 (by decide), ?_⟩
  have h := c8_address_adapter.2.2 [127, 0, 0, 1] 80 (.v4 [127, 0, 0, 1])
    (by decide) (by decide) (by decide)
  simpa using h

theorem timedCopyWrite_total (role : Mode) (srcAddr buf : List Nat) (n : Nat)
    (hfit : srcAddr.length + n ≤ buf.length) :
    ∃ w, timedCopyWrite role srcAddr buf n = some w := by
  cases role with
  | remoteServer =>
    have hk : srcAddr.length ≤ buf.length := by omega
    simp only [timedCopyWrite]
    rw [if_pos hk, goSlice_pos _ _ _ (Nat.zero_le _)
      (by rw [timedCopyWrite_remote_len srcAddr buf n hk]; omega)]
    exact ⟨_, rfl⟩
  | relayClient =>
    have hn : n ≤ buf.length := by omega
    simp only [timedCopyWrite]
    cases hs : splitAddr (buf.take n) with
    | none =>
      simp only [Option.map_none', Option.getD_none]
      rw [goSlice_pos _ _ _ (Nat.zero_le _) hn]
      exact ⟨_, rfl⟩
    | some sa =>
      have hsa : sa.length ≤ n := by
        have h1 := (splitAddr_length _ _ hs).1
        have h2 : (buf.take n).length ≤ n := by
          simp [List.length_take]
        omega
      simp only [Option.map_some', Option.getD_some]
      rw [goSlice_pos _ _ _ hsa hn]
      exact ⟨_, rfl⟩
  | socksClient => exact ⟨_, rfl⟩

theorem timedCopyBufAfter_len (role : Mode) (srcAddr buf : List Nat) (n : Nat)
    (hk : srcAddr.length ≤ buf.length) :
    (timedCopyBufAfter role srcAddr buf n).length = buf.length := by
  cases role with
  | remoteServer => exact timedCopyWrite_remote_len srcAddr buf n hk
  | relayClient => rfl
  | socksClient => rfl

theorem timedCopyRun_stops_at_first_error (role : Mode) (timeout : Nat)
    (bad : TCIter) (rest : List TCIter)
    (hbad : bad.readOk = false ∨ bad.writeOk = false) :
    ∀ (good : List TCIter) (buf : List Nat),
    (∀ it ∈ good ++ bad :: rest, it.srcAddr.length + it.data.length ≤ buf.length) →
    (∀ it ∈ good, it.readOk = true ∧ it.writeOk = true) →
    timedCopyRun role timeout buf (good ++ bad :: rest)
      = timedCopyRun role timeout buf (good ++ [bad]) ∧
    (timedCopyRun role timeout buf (good ++ bad :: rest)).2.2 = .errored ∧
    (timedCopyRun role timeout buf (good ++ bad :: rest)).1
      = (good ++ [bad]).map (fun it => it.now + timeout) := by
  intro good
  induction good with
  | nil =>
    intro buf hfit _
    simp only [List.nil_append]
    by_cases hr : bad.readOk = true
    · have hw : bad.writeOk = false := by
        rcases hbad with h | h
        · rw [hr] at h
          exact absurd h (by simp)
        · exact h
      have hfitb : bad.srcAddr.length + bad.data.length
          ≤ (copyAt buf 0 bad.data).length := by
        rw [copyAt_length _ 0 _ (Nat.zero_le _)]
        exact hfit bad (List.mem_cons_self _ _)
      obtain ⟨w, hww⟩ := timedCopyWrite_total role bad.srcAddr
        (copyAt buf 0 bad.data) bad.data.length hfitb
      simp [timedCopyRun, hr, hww, hw]
    · have hr' : bad.readOk = false := by
        cases h : bad.readOk
        · rfl
        · exact absurd h hr
      simp [timedCopyRun, hr']
  | cons it good' ih =>
    intro buf hfit hgood
    have hit := hgood it (List.mem_cons_self _ _)
    have hfit_it : it.srcAddr.length + it.data.length ≤ buf.length :=
      hfit it (by simp)
    have hbuf1len : (copyAt buf 0 it.data).length = buf.length :=
      copyAt_length _ 0 _ (Nat.zero_le _)
    obtain ⟨w, hw⟩ := timedCopyWrite_total role it.srcAddr (copyAt buf 0 it.data)
      it.data.length (by rw [hbuf1len]; exact hfit_it)
    have hafterlen :
        (timedCopyBufAfter role it.srcAddr (copyAt buf 0 it.data)
          it.data.length).length = buf.length := by
      rw [timedCopyBufAfter_len _ _ _ _ (by rw [hbuf1len]; omega), hbuf1len]
    have ihsp := ih (timedCopyBufAfter role it.srcAddr (copyAt buf 0 it.data)
        it.data.length)
      (fun it' hit' => by
        rw [hafterlen]
        exact hfit it' (List.mem_cons_of_mem it hit'))
      (fun it' hit' => hgood it' (List.mem_cons_of_mem it hit'))
    simp only [List.cons_append, timedCopyRun, hit.1, hw, hit.2, if_true,
      List.map_cons, List.append_eq]
    exact ⟨by rw [ihsp.1], ihsp.2.1, by rw [ihsp.2.2]⟩

theorem addTask_teardown (role : Mode) (timeout : Nat) (buf : List Nat)
    (iters : List TCIter) (m : NatMap) (peer : Nat)
    (hexit : (timedCopyRun role timeout buf iters).2.2 = .errored) :
    (addTask role timeout buf iters m peer).2.2 = true ∧
    (addTask role timeout buf iters m peer).1 peer = none ∧
    (addTask role timeout buf iters m peer).2.1
      = if (m peer).isSome then 1 else 0 := by
  simp only [addTask, hexit]
  cases hm : m peer with
  | some pc => simp [natDel, hm]
  | none => simp [natDel, hm]

/-- C6: session-terminal teardown.  For any schedule in which every
iteration's data fits the session buffer, a first read or write error
ends `timedCopy` at that iteration — subsequent scheduled datagrams are
never examined (no retry) — with a deadline of `now + timeout` having
been set before each read that ran; the `Add` background task then
deletes the peer's Session Table entry and closes the connection
returned by the deletion exactly once if one was present (zero times
otherwise). -/
theorem c6_session_teardown (role : Mode) (timeout : Nat) (buf : List Nat)
    (good : List TCIter) (bad : TCIter) (rest : List TCIter)
    (m : NatMap) (peer : Nat)
    (hfit : ∀ it ∈ good ++ bad :: rest,
      it.srcAddr.length + it.data.length ≤ buf.length)
    (hgood : ∀ it ∈ good, it.readOk = true ∧ it.writeOk = true)
    (hbad : bad.readOk = false ∨ bad.writeOk = false) :
    timedCopyRun role timeout buf (good ++ bad :: rest)
      = timedCopyRun role timeout buf (good ++ [bad]) ∧
    (timedCopyRun role timeout buf (good ++ bad :: rest)).2.2 = .errored ∧
    (timedCopyRun role timeout buf (good ++ bad :: rest)).1
      = (good ++ [bad]).map (fun it => it.now + timeout) ∧
    (addTask role timeout buf (good ++ bad :: rest) m peer).2.2 = true ∧
    (addTask role timeout buf (good ++ bad :: rest) m peer).1 peer = none ∧
    (addTask role timeout buf (good ++ bad :: rest) m peer).2.1
      = if (m peer).isSome then 1 else 0 := by
  have H := timedCopyRun_stops_at_first_error role timeout bad rest hbad good buf
    hfit hgood
  have T := addTask_teardown role timeout buf (good ++ bad :: rest) m peer H.2.1
  exact ⟨H.1, H.2.1, H.2.2, T.1, T.2.1, T.2.2⟩

/-- Witness for C6: one good iteration, then a read error (e.g. the idle
deadline expiring), against a table holding connection 3 for peer 7. -/
theorem c6_witness :
    (addTask .socksClient 5 [0, 0, 0, 0]
        [⟨true, [8], [], true, 90⟩, ⟨false, [], [], true, 100⟩]
        (fun k => if k = 7 then some 3 else none) 7).2.2 = true ∧
    (addTask .socksClient 5 [0, 0, 0, 0]
        [⟨true, [8], [], true, 90⟩, ⟨false, [], [], true, 100⟩]
        (fun k => if k = 7 then some 3 else none) 7).1 7 = none ∧
    (addTask .socksClient 5 [0, 0, 0, 0]
        [⟨true, [8], [], true, 90⟩, ⟨false, [], [], true, 100⟩]
        (fun k => if k = 7 then some 3 else none) 7).2.1 = 1 ∧
    (timedCopyRun .socksClient 5 [0, 0, 0, 0]
        [⟨true, [8], [], true, 90⟩, ⟨false, [], [], true, 100⟩]).1 = [95, 105] := by
  have h := c6_session_teardown .socksClient 5 [0, 0, 0, 0]
    [⟨true, [8], [], true, 90⟩] ⟨false, [], [], true, 100⟩ []
    (fun k => if k = 7 then some 3 else none) 7
    (by decide) (by decide) (Or.inl rfl)
  refine ⟨h.2.2.2.1, h.2.2.2.2.1, by simpa using h.2.2.2.2.2, by simpa using h.2.2.1⟩

end GoShadowUDP
